import Mathlib

/-!
Verification of the mysqlpool-cpp specification.

The repository ships a single source file, `examples/simple/fun_with_sql.cpp`,
which is a caller of the pool's public contract (`Mysqlpool::getConnection`,
`Mysqlpool::exec`, `Mysqlpool::close`, `Handle`).  The pool core itself
(Mysqlpool, Handle, RetryPolicy, ResultSet) is not part of the available
sources, so the definitions below are modelled from the specification's
description of those components (spec §§2-7) and the claims are settled
against this model.
-/

/-- Modelled from the spec: §3 Connection — the pool core's Connection type is
not in the available sources.  A Connection has a unique id, a health flag and
a creation timestamp (the transport handle is opaque and not modelled). -/
structure Connection where
  id : Nat
  healthy : Bool
  createdAt : Nat
deriving DecidableEq

/-- Modelled from the spec: §6 configuration record of the Pool (the fields
the claims depend on: sizes, TTL, retry limit). -/
structure PoolConfig where
  minSize : Nat
  maxSize : Nat
  connectionTTL : Nat
  maxAttempts : Nat
deriving DecidableEq

/-- Modelled from the spec: §3 Pool attributes — idle set, checked-out set,
FIFO wait queue, closed flag; `nextId`/`nextWid` are the id suppliers for
freshly created Connections and newly enqueued waiters. -/
structure PoolState where
  cfg : PoolConfig
  idle : List Connection
  checkedOut : List Connection
  waiters : List Nat
  closed : Bool
  nextId : Nat
  nextWid : Nat
deriving DecidableEq

/-- Modelled from the spec: §2 ConnectionFactory — creates a new, healthy
Connection (handshake/auth are opaque and always succeed in the model). -/
def ConnectionFactory.create (id now : Nat) : Connection :=
  { id := id, healthy := true, createdAt := now }

/-- Total number of Connections owned by the pool: idle plus checked out. -/
def poolCount (s : PoolState) : Nat :=
  s.idle.length + s.checkedOut.length

inductive PoolError where
  | poolExhausted
  | poolClosed
deriving DecidableEq

/-- Outcome of a `getConnection` call: a Handle wrapping a Connection,
a suspension on the wait queue, or an immediate failure. -/
inductive AcquireOutcome where
  | handle (c : Connection)
  | wait (wid : Nat)
  | failed (e : PoolError)
deriving DecidableEq

/-- Modelled from the spec: §4.1 `getConnection(timeout)` — after `close()`
requests fail with `PoolClosed`; if an idle Connection exists it is returned
immediately; else if checked-out + idle < max size a new Connection is created
via ConnectionFactory; else the caller is enqueued at the back of the FIFO
wait queue (its later timeout is the separate step `timeoutWaiter`). -/
def getConnection (now : Nat) (s : PoolState) : AcquireOutcome × PoolState :=
  if s.closed then (.failed .poolClosed, s)
  else
    match s.idle with
    | c :: rest =>
        (.handle c, { s with idle := rest, checkedOut := c :: s.checkedOut })
    | [] =>
        if s.idle.length + s.checkedOut.length < s.cfg.maxSize then
          let c := ConnectionFactory.create s.nextId now
          (.handle c,
           { s with checkedOut := c :: s.checkedOut, nextId := s.nextId + 1 })
        else
          (.wait s.nextWid,
           { s with waiters := s.waiters ++ [s.nextWid], nextWid := s.nextWid + 1 })

/-- Modelled from the spec: §4.1/§5 — a waiter whose `timeout` elapses fails
with `PoolExhausted` and is removed from the wait queue, with no side effect
on the pool's accounting (no phantom checked-out slot). -/
def timeoutWaiter (wid : Nat) (s : PoolState) : PoolError × PoolState :=
  (.poolExhausted, { s with waiters := s.waiters.erase wid })

/-- Modelled from the spec: §3/§4.1 — a released Connection is usable again
when it is healthy and not aged past the configured TTL. -/
def connUsable (cfg : PoolConfig) (now : Nat) (c : Connection) : Bool :=
  c.healthy && decide (now - c.createdAt ≤ cfg.connectionTTL)

/-- Modelled from the spec: §4.1 `release(connection)` (invoked only by
Handle) — validates health; if healthy and not expired, returns the
Connection to idle and wakes the oldest waiting caller (FIFO); if broken or
expired (or the pool is closed), discards it.  Returns the woken waiter, if
any.  A Connection that is not checked out is not released (release happens
at most once per checkout). -/
def release (c : Connection) (now : Nat) (s : PoolState) : PoolState × Option Nat :=
  if c ∈ s.checkedOut then
    let s1 := { s with checkedOut := s.checkedOut.erase c }
    if s.closed then (s1, none)
    else if connUsable s.cfg now c then
      match s1.waiters with
      | [] => ({ s1 with idle := s1.idle ++ [c] }, none)
      | w :: rest => ({ s1 with idle := s1.idle ++ [c], waiters := rest }, some w)
    else (s1, none)
  else (s, none)

inductive CloseError where
  | forcedClose
deriving DecidableEq

/-- Modelled from the spec: §4.1 `close()` — stops accepting new requests,
closes all idle Connections, fails pending waiters; if Connections are still
checked out past the grace period they are forcibly closed, reported as
`ForcedClose`.  Calling `close()` on an already-closed pool is a no-op that
returns success. -/
def closePool (s : PoolState) : Except CloseError Unit × PoolState :=
  if s.closed then (.ok (), s)
  else if s.checkedOut.isEmpty then
    (.ok (), { s with closed := true, idle := [], waiters := [] })
  else
    (.error .forcedClose,
     { s with closed := true, idle := [], checkedOut := [], waiters := [] })

/-- Modelled from the spec: §3/§4.2 Handle — wraps one checked-out
Connection, with a released flag guaranteeing release happens at most once. -/
structure Handle where
  conn : Connection
  released : Bool
deriving DecidableEq

/-- Modelled from the spec: §4.2/§9 — the scope-end (RAII destructor) action
of a Handle: if not yet released, release the wrapped Connection back to the
owning Pool and mark the Handle released; a second trigger is a no-op. -/
def scopeEnd (h : Handle) (now : Nat) (s : PoolState) : Handle × PoolState :=
  if h.released then (h, s)
  else ({ h with released := true }, (release h.conn now s).1)

/-- Modelled from the spec: §4.1 — the non-blocking acquisition step used
inside `exec` ("acquires a Handle, respecting pool timeout"): an idle
Connection, else a fresh one when below max size, else `PoolExhausted`
(the in-model rendering of the acquire timeout expiring). -/
def acquireNow (now : Nat) (s : PoolState) : Except PoolError (Connection × PoolState) :=
  if s.closed then .error .poolClosed
  else
    match s.idle with
    | c :: rest =>
        .ok (c, { s with idle := rest, checkedOut := c :: s.checkedOut })
    | [] =>
        if s.idle.length + s.checkedOut.length < s.cfg.maxSize then
          .ok (ConnectionFactory.create s.nextId now,
               { s with checkedOut := ConnectionFactory.create s.nextId now :: s.checkedOut,
                        nextId := s.nextId + 1 })
        else .error .poolExhausted

/-- Modelled from the spec: §4.1 exec — discarding the failed Connection
(treated as broken): it is removed from the pool entirely. -/
def discardConn (c : Connection) (s : PoolState) : PoolState :=
  { s with checkedOut := s.checkedOut.erase c }

/-- Modelled from the spec: §4.2 — scoped use of a Connection: acquire, run
the caller's body, and trigger the Handle's scope-end release on every exit
path, whether the body returned normally or propagated an error. -/
def withConnection {ε α : Type} (now : Nat) (s : PoolState)
    (body : Connection → Except ε α) : Except (PoolError ⊕ ε) α × PoolState :=
  match acquireNow now s with
  | .error pe => (.error (.inl pe), s)
  | .ok (c, s1) =>
      let s2 := (scopeEnd { conn := c, released := false } now s1).2
      match body c with
      | .ok a => (.ok a, s2)
      | .error e => (.error (.inr e), s2)

/-- Modelled from the spec: §4.3 — the error classifications fed to
RetryPolicy. -/
inductive ErrClass where
  | networkFailure
  | transientServer
  | permanentServer
  | protocolError
deriving DecidableEq

/-- Modelled from the spec: §4.3 decision table — network failures and
transient server errors are retryable; permanent server and
protocol/decoding errors are not. -/
def retryable : ErrClass → Bool
  | .networkFailure => true
  | .transientServer => true
  | .permanentServer => false
  | .protocolError => false

/-- Modelled from the spec: §4.4 — the scalar cell values of the model. -/
inductive Value where
  | intV (n : Int)
  | strV (s : String)
deriving DecidableEq

/-- A result row: an ordered sequence of typed values. -/
def Row := List Value
deriving DecidableEq

/-- Modelled from the spec: §3 ResultSet — ordered rows plus the "has value"
flag distinguishing "no rows" from "no result". -/
structure ResultSet where
  hasValue : Bool
  rows : List Row
deriving DecidableEq

/-- Modelled from the spec: §4.4 — a structured, tuple-like record of values
(`make_tuple(4, "Eve"s)` in the example). -/
inductive Tup where
  | nil
  | cons (v : Value) (rest : Tup)
deriving DecidableEq

/-- The fields of a tuple-like record in declaration order. -/
def Tup.toList : Tup → List Value
  | .nil => []
  | .cons v rest => v :: rest.toList

/-- Modelled from the spec: §4.4 — exec parameters are either an ordered
sequence of scalar values or a single structured record. -/
inductive Params where
  | positional (vs : List Value)
  | record (t : Tup)
deriving DecidableEq

/-- The values a Params carries, in positional order. -/
def Params.values : Params → List Value
  | .positional vs => vs
  | .record t => t.toList

/-- Modelled from the spec: a statement has opaque text (never validated by
the core, §9) and a number of placeholders. -/
structure Statement where
  text : String
  placeholders : Nat
deriving DecidableEq

inductive ExecError where
  | bindError
  | queryError (last : ErrClass)
  | poolErr (e : PoolError)
deriving DecidableEq

/-- Modelled from the spec: §4.4 — positional binding; mismatched arity
fails with `BindError` before any network call. -/
def bindParams (stmt : Statement) (ps : Params) : Except ExecError (List Value) :=
  let vs := ps.values
  if vs.length = stmt.placeholders then .ok vs else .error .bindError

/-- Modelled from the spec: §4.1 exec retry loop — acquire a Connection, run
the query (an oracle for the server's response), release on success; on
error consult RetryPolicy: if the classification is retryable and attempts
remain, discardConn the broken Connection and retry on a fresh acquisition, else
fail with `QueryError` carrying the last underlying error.  `remaining` is
the number of retries still allowed; the third component of the result lists
the ids of the Connections used, in order. -/
def execLoop (query : Connection → Except ErrClass (List Row)) (now : Nat)
    (remaining : Nat) (s : PoolState) :
    Except ExecError ResultSet × PoolState × List Nat :=
  match acquireNow now s with
  | .error pe => (.error (.poolErr pe), s, [])
  | .ok (c, s1) =>
      match query c with
      | .ok rows => (.ok { hasValue := true, rows := rows }, (release c now s1).1, [c.id])
      | .error e =>
          let s2 := discardConn c s1
          if retryable e then
            match remaining with
            | r + 1 =>
                let (res, s3, used) := execLoop query now r s2
                (res, s3, c.id :: used)
            | 0 => (.error (.queryError e), s2, [c.id])
          else (.error (.queryError e), s2, [c.id])

/-- Modelled from the spec: §4.1 `exec(statement, params...)` — bindParams the
parameters positionally (BindError before any network call on arity
mismatch), then run the retry loop with at most `maxAttempts` attempts.
`query` is the oracle giving the server's response to the bound statement on
a given Connection. -/
def exec (query : List Value → Connection → Except ErrClass (List Row))
    (maxAttempts now : Nat) (stmt : Statement) (ps : Params) (s : PoolState) :
    Except ExecError ResultSet × PoolState × List Nat :=
  match bindParams stmt ps with
  | .error e => (.error e, s, [])
  | .ok vs => execLoop (query vs) now (maxAttempts - 1) s

/-- A pool-facing operation, for stating the accounting invariant over all
operation sequences: a `getConnection` call, a waiter timeout, a Handle drop
(release), a full `exec` call, or `close`. -/
inductive PoolOp where
  | acquire (now : Nat)
  | timeoutW (wid : Nat)
  | drop (c : Connection) (now : Nat)
  | execQ (query : List Value → Connection → Except ErrClass (List Row))
      (maxAttempts now : Nat) (stmt : Statement) (ps : Params)
  | closeP

/-- The state transition of one pool operation. -/
def applyOp (s : PoolState) : PoolOp → PoolState
  | .acquire now => (getConnection now s).2
  | .timeoutW wid => (timeoutWaiter wid s).2
  | .drop c now => (release c now s).1
  | .execQ query maxAttempts now stmt ps => (exec query maxAttempts now stmt ps s).2.1
  | .closeP => (closePool s).2

/-- Run a sequence of pool operations. -/
def runOps (s : PoolState) : List PoolOp → PoolState
  | [] => s
  | op :: ops => runOps (applyOp s op) ops

/-! Concrete instances used by the witnesses. -/

/-- A fresh, empty pool with room for two Connections. -/
def stEmpty : PoolState :=
  { cfg := { minSize := 0, maxSize := 2, connectionTTL := 10, maxAttempts := 3 },
    idle := [], checkedOut := [], waiters := [], closed := false,
    nextId := 0, nextWid := 0 }

/-- A pool holding one idle Connection. -/
def stOneIdle : PoolState :=
  { stEmpty with idle := [ConnectionFactory.create 0 0], nextId := 1 }

/-- A pool whose single Connection is checked out while one caller waits. -/
def stBusy : PoolState :=
  { cfg := { minSize := 0, maxSize := 1, connectionTTL := 10, maxAttempts := 3 },
    idle := [], checkedOut := [ConnectionFactory.create 0 0], waiters := [7],
    closed := false, nextId := 1, nextWid := 8 }

/-- A parameterless statement. -/
def stmtPing : Statement := { text := "SELECT 1", placeholders := 0 }

/-- A two-placeholder statement, as in the example's INSERT. -/
def stmtIns : Statement :=
  { text := "INSERT INTO test_table (id, name) VALUES (?, ?)", placeholders := 2 }

/-- A query oracle that always fails with a transient server error. -/
def qTransient : List Value → Connection → Except ErrClass (List Row) :=
  fun _ _ => .error .transientServer

/-- A query oracle that always fails with a permanent server error. -/
def qPermanent : List Value → Connection → Except ErrClass (List Row) :=
  fun _ _ => .error .permanentServer

/-- A query oracle that always succeeds with one row. -/
def qOneRow : List Value → Connection → Except ErrClass (List Row) :=
  fun _ _ => .ok [[Value.strV "11.3.2-MariaDB"]]

/-! Helper lemmas. -/

theorem closePool_closed (s : PoolState) : ((closePool s).2).closed = true := by
  cases hc : s.closed
  · cases he : s.checkedOut.isEmpty <;> simp [closePool, hc, he]
  · simp [closePool, hc]

theorem closePool_of_closed (s : PoolState) (h : s.closed = true) :
    closePool s = (Except.ok (), s) := by
  simp [closePool, h]

theorem getConnection_of_closed (now : Nat) (s : PoolState) (h : s.closed = true) :
    getConnection now s = (.failed .poolClosed, s) := by
  simp [getConnection, h]

/-- C9: `close()` is idempotent — a second `close()` changes no pool state
and returns success — and after `close()` every `getConnection` fails
immediately with `PoolClosed`, leaving the state unchanged. -/
theorem closePool_idempotent (s : PoolState) :
    closePool (closePool s).2 = (Except.ok (), (closePool s).2) ∧
    ∀ now : Nat, getConnection now (closePool s).2 =
      (AcquireOutcome.failed PoolError.poolClosed, (closePool s).2) :=
  ⟨closePool_of_closed _ (closePool_closed s),
   fun now => getConnection_of_closed now _ (closePool_closed s)⟩

/-- C4: the `getConnection(timeout)` contract on an open pool — an idle
Connection is handed out immediately; otherwise, below max size, a new
Connection is created via ConnectionFactory and handed out; otherwise the
caller is enqueued at the back of the FIFO wait queue; and a waiter whose
timeout elapses fails with `PoolExhausted` with the idle/checked-out
accounting untouched. -/
theorem getConnection_contract (now : Nat) (s : PoolState) (hopen : s.closed = false) :
    (∀ c rest, s.idle = c :: rest →
      getConnection now s =
        (.handle c, { s with idle := rest, checkedOut := c :: s.checkedOut })) ∧
    (s.idle = [] → s.idle.length + s.checkedOut.length < s.cfg.maxSize →
      getConnection now s =
        (.handle (ConnectionFactory.create s.nextId now),
         { s with checkedOut := ConnectionFactory.create s.nextId now :: s.checkedOut,
                  nextId := s.nextId + 1 })) ∧
    (s.idle = [] → s.cfg.maxSize ≤ s.idle.length + s.checkedOut.length →
      getConnection now s =
        (.wait s.nextWid,
         { s with waiters := s.waiters ++ [s.nextWid], nextWid := s.nextWid + 1 })) ∧
    (∀ wid, (timeoutWaiter wid s).1 = PoolError.poolExhausted ∧
      ((timeoutWaiter wid s).2).idle = s.idle ∧
      ((timeoutWaiter wid s).2).checkedOut = s.checkedOut) := by
  refine ⟨fun c rest hidle => ?_, fun hidle hlt => ?_, fun hidle hge => ?_,
    fun wid => ⟨rfl, rfl, rfl⟩⟩
  · simp [getConnection, hopen, hidle]
  · have h2 : s.checkedOut.length < s.cfg.maxSize := by
      rw [hidle] at hlt; simpa using hlt
    simp [getConnection, hopen, hidle, h2]
  · have h2 : ¬ s.checkedOut.length < s.cfg.maxSize := by
      rw [hidle] at hge; simp at hge; omega
    simp [getConnection, hopen, hidle, h2]

theorem getConnection_contract_witness :
    stOneIdle.closed = false ∧
    getConnection 3 stOneIdle =
      (.handle (ConnectionFactory.create 0 0),
       { stOneIdle with idle := [],
                        checkedOut := [ConnectionFactory.create 0 0] }) :=
  ⟨rfl, (getConnection_contract 3 stOneIdle rfl).1 (ConnectionFactory.create 0 0) [] rfl⟩

/-- C6: FIFO fairness on release — when a healthy, non-expired Connection is
released into an open pool while callers wait, the oldest waiter is the one
woken, it is removed from the queue, and the Connection is back in the idle
set for it. -/
theorem release_fifo (c : Connection) (now : Nat) (s : PoolState) (w : Nat)
    (rest : List Nat) (hmem : c ∈ s.checkedOut) (hopen : s.closed = false)
    (husable : connUsable s.cfg now c = true) (hw : s.waiters = w :: rest) :
    (release c now s).2 = some w ∧
    ((release c now s).1).waiters = rest ∧
    c ∈ ((release c now s).1).idle := by
  simp [release, hmem, hopen, husable, hw]

theorem release_fifo_witness :
    (ConnectionFactory.create 0 0 ∈ stBusy.checkedOut ∧
     connUsable stBusy.cfg 4 (ConnectionFactory.create 0 0) = true) ∧
    (release (ConnectionFactory.create 0 0) 4 stBusy).2 = some 7 ∧
    ((release (ConnectionFactory.create 0 0) 4 stBusy).1).waiters = [] ∧
    ConnectionFactory.create 0 0 ∈ ((release (ConnectionFactory.create 0 0) 4 stBusy).1).idle :=
  ⟨⟨by decide, by decide⟩,
   release_fifo (ConnectionFactory.create 0 0) 4 stBusy 7 [] (by decide) rfl (by decide) rfl⟩

/-- C7: mismatched parameter arity — whether the parameters are an ordered
sequence of scalars or a single tuple-like record, a count that differs from
the statement's placeholder count makes `exec` fail with `BindError` with
the pool state untouched and no Connection ever acquired (no network
call). -/
theorem exec_bind_mismatch (query : List Value → Connection → Except ErrClass (List Row))
    (maxAttempts now : Nat) (stmt : Statement) (ps : Params) (s : PoolState)
    (h : ps.values.length ≠ stmt.placeholders) :
    exec query maxAttempts now stmt ps s = (.error .bindError, s, []) := by
  have hb : bindParams stmt ps = .error .bindError := by
    simp [bindParams, h]
  unfold exec
  rw [hb]

theorem exec_bind_mismatch_witness :
    ((Params.record (Tup.cons (Value.intV 4) Tup.nil)).values.length ≠ stmtIns.placeholders) ∧
    exec qOneRow 3 0 stmtIns (Params.record (Tup.cons (Value.intV 4) Tup.nil)) stOneIdle =
      (.error .bindError, stOneIdle, []) :=
  ⟨by decide,
   exec_bind_mismatch qOneRow 3 0 stmtIns (Params.record (Tup.cons (Value.intV 4) Tup.nil))
     stOneIdle (by decide)⟩

/-- C8: binding a structured tuple-like record yields exactly the same
`exec` outcome (ResultSet, pool state, Connections used) as binding the
equivalent ordered sequence of its values — in particular the same
ResultSet row for the record (4, "Eve") as for the sequence [4, "Eve"]. -/
theorem exec_record_eq_positional (query : List Value → Connection → Except ErrClass (List Row))
    (maxAttempts now : Nat) (stmt : Statement) (t : Tup) (s : PoolState) :
    exec query maxAttempts now stmt (Params.record t) s =
      exec query maxAttempts now stmt (Params.positional t.toList) s := rfl

/-- C5: a permanently-classified failure is never retried — `exec` fails at
once with `QueryError` carrying that underlying error, having used exactly
the one Connection it first acquired, whatever `maxAttempts` is. -/
theorem exec_permanent_immediate (query : List Value → Connection → Except ErrClass (List Row))
    (maxAttempts now : Nat) (stmt : Statement) (ps : Params) (s : PoolState)
    (vs : List Value) (c : Connection) (s1 : PoolState) (e : ErrClass)
    (hbind : bindParams stmt ps = .ok vs)
    (hacq : acquireNow now s = .ok (c, s1))
    (hq : query vs c = .error e)
    (hperm : retryable e = false) :
    exec query maxAttempts now stmt ps s =
      (.error (.queryError e), discardConn c s1, [c.id]) := by
  unfold exec execLoop
  simp only [hbind, hacq, hq, hperm]
  simp

theorem exec_permanent_immediate_witness :
    (retryable ErrClass.permanentServer = false) ∧
    exec qPermanent 5 0 stmtPing (Params.positional []) stOneIdle =
      (.error (.queryError ErrClass.permanentServer),
       discardConn (ConnectionFactory.create 0 0)
         { stOneIdle with idle := [],
                          checkedOut := [ConnectionFactory.create 0 0] },
       [0]) :=
  ⟨rfl,
   exec_permanent_immediate qPermanent 5 0 stmtPing (Params.positional []) stOneIdle
     [] (ConnectionFactory.create 0 0)
     { stOneIdle with idle := [], checkedOut := [ConnectionFactory.create 0 0] }
     ErrClass.permanentServer rfl rfl rfl rfl⟩

theorem release_checkedOut (c : Connection) (now : Nat) (s : PoolState)
    (h : c ∈ s.checkedOut) :
    ((release c now s).1).checkedOut = s.checkedOut.erase c := by
  simp only [release, h, if_true]
  split
  · rfl
  · split
    · split <;> rfl
    · rfl

theorem acquireNow_ok (now : Nat) (s : PoolState) (c : Connection) (s1 : PoolState)
    (h : acquireNow now s = .ok (c, s1)) :
    s1.checkedOut = c :: s.checkedOut ∧ s1.closed = false ∧ s1.cfg = s.cfg ∧
    (poolCount s ≤ s.cfg.maxSize → poolCount s1 ≤ s.cfg.maxSize) := by
  unfold acquireNow at h
  split at h
  · simp at h
  · rename_i hnc
    have hopen : s.closed = false := by simpa using hnc
    split at h
    · rename_i c' rest hidle
      simp only [Except.ok.injEq, Prod.mk.injEq] at h
      obtain ⟨rfl, rfl⟩ := h
      refine ⟨rfl, hopen, rfl, fun hwf => ?_⟩
      simp only [poolCount, hidle, List.length_cons] at hwf ⊢
      omega
    · rename_i hidle
      split at h
      · rename_i hlt
        simp only [Except.ok.injEq, Prod.mk.injEq] at h
        obtain ⟨rfl, rfl⟩ := h
        refine ⟨rfl, hopen, rfl, fun hwf => ?_⟩
        simp only [poolCount, List.length_cons] at hwf ⊢
        omega
      · simp at h

theorem scopeEnd_scopeEnd (h : Handle) (now : Nat) (s : PoolState) :
    scopeEnd (scopeEnd h now s).1 now (scopeEnd h now s).2 = scopeEnd h now s := by
  cases hr : h.released <;> simp [scopeEnd, hr]

theorem withConnection_checkedOut (ε α : Type) (now : Nat) (s : PoolState)
    (body : Connection → Except ε α) :
    ((withConnection now s body).2).checkedOut = s.checkedOut := by
  unfold withConnection
  rcases hacq : acquireNow now s with pe | ⟨c, s1⟩
  · simp only []
  · simp only []
    have hco := (acquireNow_ok now s c s1 hacq).1
    have hrel : ((scopeEnd { conn := c, released := false } now s1).2).checkedOut
        = s.checkedOut := by
      simp only [scopeEnd, Bool.false_eq_true, if_false]
      rw [release_checkedOut c now s1 (by rw [hco]; exact List.mem_cons_self c _)]
      rw [hco, List.erase_cons_head]
    cases body c <;> simpa using hrel

theorem execLoop_checkedOut (query : Connection → Except ErrClass (List Row)) (now : Nat) :
    ∀ (remaining : Nat) (s : PoolState),
      (((execLoop query now remaining s).2.1).checkedOut = s.checkedOut) := by
  intro remaining
  induction remaining with
  | zero =>
      intro s
      unfold execLoop
      rcases hacq : acquireNow now s with pe | ⟨c, s1⟩
      · simp only []
      · dsimp only
        have hco := (acquireNow_ok now s c s1 hacq).1
        have hmem : c ∈ s1.checkedOut := by
          rw [hco]; exact List.mem_cons_self c _
        have hdc : ((discardConn c s1).checkedOut) = s.checkedOut := by
          simp only [discardConn]
          rw [hco, List.erase_cons_head]
        rcases hq : query c with e | rows
        · dsimp only
          split <;> exact hdc
        · dsimp only
          rw [release_checkedOut c now s1 hmem, hco, List.erase_cons_head]
  | succ n ih =>
      intro s
      unfold execLoop
      rcases hacq : acquireNow now s with pe | ⟨c, s1⟩
      · simp only []
      · dsimp only
        have hco := (acquireNow_ok now s c s1 hacq).1
        have hmem : c ∈ s1.checkedOut := by
          rw [hco]; exact List.mem_cons_self c _
        have hdc : ((discardConn c s1).checkedOut) = s.checkedOut := by
          simp only [discardConn]
          rw [hco, List.erase_cons_head]
        rcases hq : query c with e | rows
        · dsimp only
          split
          · rcases hrec : execLoop query now n (discardConn c s1) with ⟨res, s3, used⟩
            have hih := ih (discardConn c s1)
            rw [hrec] at hih
            simp only [hrec]
            dsimp only at hih ⊢
            rw [hih] at *
            exact hdc
          · exact hdc
        · dsimp only
          rw [release_checkedOut c now s1 hmem, hco, List.erase_cons_head]

theorem exec_checkedOut (query : List Value → Connection → Except ErrClass (List Row))
    (maxAttempts now : Nat) (stmt : Statement) (ps : Params) (s : PoolState) :
    ((exec query maxAttempts now stmt ps s).2.1).checkedOut = s.checkedOut := by
  unfold exec
  rcases hb : bindParams stmt ps with e | vs
  · simp only []
  · simp only []
    exact execLoop_checkedOut (query vs) now (maxAttempts - 1) s

/-- C2: release happens exactly once per checkout — triggering a Handle's
scope-end action a second time is a no-op (double release is impossible);
scoped use of a Connection leaves the checked-out set exactly as it was on
every exit path, normal or error; and `exec` releases every Connection it
acquired before it returns, on every path, leaving no phantom checked-out
Connection. -/
theorem handle_release_exactly_once :
    (∀ (h : Handle) (now : Nat) (s : PoolState),
        scopeEnd (scopeEnd h now s).1 now (scopeEnd h now s).2 = scopeEnd h now s) ∧
    (∀ (ε α : Type) (now : Nat) (s : PoolState) (body : Connection → Except ε α),
        ((withConnection now s body).2).checkedOut = s.checkedOut) ∧
    (∀ (query : List Value → Connection → Except ErrClass (List Row))
        (maxAttempts now : Nat) (stmt : Statement) (ps : Params) (s : PoolState),
        ((exec query maxAttempts now stmt ps s).2.1).checkedOut = s.checkedOut) :=
  ⟨scopeEnd_scopeEnd, withConnection_checkedOut, exec_checkedOut⟩

theorem execLoop_ok_hasValue (query : Connection → Except ErrClass (List Row)) (now : Nat) :
    ∀ (remaining : Nat) (s : PoolState) (r : ResultSet),
      (execLoop query now remaining s).1 = Except.ok r → r.hasValue = true := by
  intro remaining
  induction remaining with
  | zero =>
      intro s r h
      unfold execLoop at h
      rcases hacq : acquireNow now s with pe | ⟨c, s1⟩
      · rw [hacq] at h; simp at h
      · rw [hacq] at h
        dsimp only at h
        rcases hq : query c with e | rows
        · rw [hq] at h
          dsimp only at h
          split at h <;> simp at h
        · rw [hq] at h
          dsimp only at h
          obtain rfl : ({ hasValue := true, rows := rows } : ResultSet) = r := by
            simpa using h
          rfl
  | succ n ih =>
      intro s r h
      unfold execLoop at h
      rcases hacq : acquireNow now s with pe | ⟨c, s1⟩
      · rw [hacq] at h; simp at h
      · rw [hacq] at h
        dsimp only at h
        rcases hq : query c with e | rows
        · rw [hq] at h
          dsimp only at h
          split at h
          · rcases hrec : execLoop query now n (discardConn c s1) with ⟨res, s3, used⟩
            rw [hrec] at h
            dsimp only at h
            apply ih (discardConn c s1) r
            rw [hrec]
            simpa using h
          · simp at h
        · rw [hq] at h
          dsimp only at h
          obtain rfl : ({ hasValue := true, rows := rows } : ResultSet) = r := by
            simpa using h
          rfl

/-- C10: whenever `exec` returns normally its ResultSet is in the has-value
state (the flag distinguishing a result, possibly with zero rows, from no
result), so a caller's check that the result is non-empty right after a
successful `exec` always passes. -/
theorem exec_ok_hasValue (query : List Value → Connection → Except ErrClass (List Row))
    (maxAttempts now : Nat) (stmt : Statement) (ps : Params) (s : PoolState)
    (r : ResultSet) (h : (exec query maxAttempts now stmt ps s).1 = Except.ok r) :
    r.hasValue = true := by
  unfold exec at h
  rcases hb : bindParams stmt ps with e | vs <;> rw [hb] at h
  · simp at h
  · exact execLoop_ok_hasValue (query vs) now (maxAttempts - 1) s r (by simpa using h)

theorem exec_ok_hasValue_witness :
    (exec qOneRow 3 0 stmtPing (Params.positional []) stOneIdle).1 =
      Except.ok ({ hasValue := true, rows := [[Value.strV "11.3.2-MariaDB"]] } : ResultSet) ∧
    ({ hasValue := true, rows := [[Value.strV "11.3.2-MariaDB"]] } : ResultSet).hasValue = true :=
  ⟨rfl,
   exec_ok_hasValue qOneRow 3 0 stmtPing (Params.positional []) stOneIdle
     { hasValue := true, rows := [[Value.strV "11.3.2-MariaDB"]] } rfl⟩

theorem release_inv (c : Connection) (now : Nat) (s : PoolState) :
    ((release c now s).1).cfg = s.cfg ∧ poolCount ((release c now s).1) ≤ poolCount s := by
  by_cases hmem : c ∈ s.checkedOut
  · have hlen := List.length_erase_of_mem hmem
    have hpos := List.length_pos_of_mem hmem
    simp only [release, hmem, if_true]
    constructor
    · split
      · rfl
      · split
        · split <;> rfl
        · rfl
    · split
      · simp only [poolCount, hlen]; omega
      · split
        · split <;>
            (simp only [poolCount, List.length_append, List.length_singleton, hlen]; omega)
        · simp only [poolCount, hlen]; omega
  · simp [release, hmem]

theorem getConnection_inv (now : Nat) (s : PoolState) :
    ((getConnection now s).2).cfg = s.cfg ∧
    (poolCount s ≤ s.cfg.maxSize → poolCount ((getConnection now s).2) ≤ s.cfg.maxSize) := by
  unfold getConnection
  split
  · exact ⟨rfl, fun h => h⟩
  · split
    · rename_i c rest hidle
      refine ⟨rfl, fun h => ?_⟩
      simp only [poolCount, hidle, List.length_cons] at h ⊢
      omega
    · split
      · rename_i hidle hlt
        refine ⟨rfl, fun h => ?_⟩
        simp only [poolCount, List.length_cons] at h ⊢
        omega
      · exact ⟨rfl, fun h => h⟩

theorem closePool_inv (s : PoolState) :
    ((closePool s).2).cfg = s.cfg ∧ poolCount ((closePool s).2) ≤ poolCount s := by
  unfold closePool
  split
  · exact ⟨rfl, le_refl _⟩
  · split <;>
      (refine ⟨rfl, ?_⟩; simp only [poolCount, List.length_nil]; omega)

theorem discardConn_count (c : Connection) (s : PoolState) :
    poolCount (discardConn c s) ≤ poolCount s := by
  simp only [discardConn, poolCount]
  have := (List.erase_sublist c s.checkedOut).length_le
  omega

theorem execLoop_inv (query : Connection → Except ErrClass (List Row)) (now : Nat) :
    ∀ (remaining : Nat) (s : PoolState),
      ((execLoop query now remaining s).2.1).cfg = s.cfg ∧
      (poolCount s ≤ s.cfg.maxSize →
        poolCount ((execLoop query now remaining s).2.1) ≤ s.cfg.maxSize) := by
  intro remaining
  induction remaining with
  | zero =>
      intro s
      unfold execLoop
      rcases hacq : acquireNow now s with pe | ⟨c, s1⟩
      · exact ⟨rfl, fun h => h⟩
      · try dsimp only
        obtain ⟨hco, hop, hcfg, hcnt⟩ := acquireNow_ok now s c s1 hacq
        rcases hq : query c with e | rows
        · try dsimp only
          split
          · refine ⟨hcfg, fun h => ?_⟩
            exact le_trans (le_trans (discardConn_count c s1) (hcnt h)) (le_refl _)
          · refine ⟨hcfg, fun h => ?_⟩
            exact le_trans (discardConn_count c s1) (hcnt h)
        · try dsimp only
          obtain ⟨hrc, hrcnt⟩ := release_inv c now s1
          exact ⟨hrc.trans hcfg, fun h => le_trans hrcnt (hcnt h)⟩
  | succ n ih =>
      intro s
      unfold execLoop
      rcases hacq : acquireNow now s with pe | ⟨c, s1⟩
      · exact ⟨rfl, fun h => h⟩
      · try dsimp only
        obtain ⟨hco, hop, hcfg, hcnt⟩ := acquireNow_ok now s c s1 hacq
        rcases hq : query c with e | rows
        · try dsimp only
          split
          · rcases hrec : execLoop query now n (discardConn c s1) with ⟨res, s3, used⟩
            have hih := ih (discardConn c s1)
            rw [hrec] at hih
            try dsimp only at hih
            simp only [hrec]
            try dsimp only
            have hdcfg : (discardConn c s1).cfg = s.cfg := hcfg
            refine ⟨hih.1.trans hdcfg, fun h => ?_⟩
            have h2 : poolCount (discardConn c s1) ≤ (discardConn c s1).cfg.maxSize := by
              rw [hdcfg]
              exact le_trans (discardConn_count c s1) (hcnt h)
            have := hih.2 h2
            rw [hdcfg] at this
            exact this
          · refine ⟨hcfg, fun h => ?_⟩
            exact le_trans (discardConn_count c s1) (hcnt h)
        · try dsimp only
          obtain ⟨hrc, hrcnt⟩ := release_inv c now s1
          exact ⟨hrc.trans hcfg, fun h => le_trans hrcnt (hcnt h)⟩

theorem exec_inv (query : List Value → Connection → Except ErrClass (List Row))
    (maxAttempts now : Nat) (stmt : Statement) (ps : Params) (s : PoolState) :
    ((exec query maxAttempts now stmt ps s).2.1).cfg = s.cfg ∧
    (poolCount s ≤ s.cfg.maxSize →
      poolCount ((exec query maxAttempts now stmt ps s).2.1) ≤ s.cfg.maxSize) := by
  unfold exec
  rcases hb : bindParams stmt ps with e | vs
  · exact ⟨rfl, fun h => h⟩
  · exact execLoop_inv (query vs) now (maxAttempts - 1) s

theorem applyOp_inv (s : PoolState) (op : PoolOp) :
    (applyOp s op).cfg = s.cfg ∧
    (poolCount s ≤ s.cfg.maxSize → poolCount (applyOp s op) ≤ s.cfg.maxSize) := by
  cases op with
  | acquire now => exact getConnection_inv now s
  | timeoutW wid => exact ⟨rfl, fun h => h⟩
  | drop c now =>
      obtain ⟨h1, h2⟩ := release_inv c now s
      exact ⟨h1, fun h => le_trans h2 h⟩
  | execQ query maxAttempts now stmt ps => exact exec_inv query maxAttempts now stmt ps s
  | closeP =>
      obtain ⟨h1, h2⟩ := closePool_inv s
      exact ⟨h1, fun h => le_trans h2 h⟩

/-- C1: the pool's accounting invariant — over every sequence of pool
operations (getConnection calls, Handle drops/releases, waiter timeouts,
whole exec calls including failing ones, close), checked-out + idle never
exceeds the configured max size; both counts are naturals so they can never
go negative, and failed acquisitions or executions leave the bookkeeping
consistent. -/
theorem pool_accounting_invariant (s : PoolState) (ops : List PoolOp)
    (h : poolCount s ≤ s.cfg.maxSize) :
    poolCount (runOps s ops) ≤ (runOps s ops).cfg.maxSize := by
  induction ops generalizing s with
  | nil => exact h
  | cons op ops ih =>
      have h1 := applyOp_inv s op
      have h2 : poolCount (applyOp s op) ≤ (applyOp s op).cfg.maxSize := by
        rw [h1.1]; exact h1.2 h
      exact ih (applyOp s op) h2

/-- A short demonstration run: acquire, drop, acquire again, time a waiter
out, close. -/
def opsDemo : List PoolOp :=
  [.acquire 0, .drop (ConnectionFactory.create 0 0) 1, .acquire 1, .timeoutW 9, .closeP]

theorem pool_accounting_invariant_witness :
    poolCount stOneIdle ≤ stOneIdle.cfg.maxSize ∧
    poolCount (runOps stOneIdle opsDemo) ≤ (runOps stOneIdle opsDemo).cfg.maxSize :=
  ⟨by decide, pool_accounting_invariant stOneIdle opsDemo (by decide)⟩

theorem acquireNow_idle_cons (now : Nat) (s : PoolState) (c : Connection)
    (rest : List Connection) (hopen : s.closed = false) (hidle : s.idle = c :: rest) :
    acquireNow now s =
      .ok (c, { s with idle := rest, checkedOut := c :: s.checkedOut }) := by
  simp [acquireNow, hopen, hidle]

theorem acquireNow_idle_nil (now : Nat) (s : PoolState)
    (hopen : s.closed = false) (hidle : s.idle = [])
    (hlt : s.checkedOut.length < s.cfg.maxSize) :
    acquireNow now s =
      .ok (ConnectionFactory.create s.nextId now,
        { s with checkedOut := ConnectionFactory.create s.nextId now :: s.checkedOut,
                 nextId := s.nextId + 1 }) := by
  simp [acquireNow, hopen, hidle, hlt]

/-- The precondition for the retry-distinctness argument: the pool is open,
no Connection is checked out by another caller, there is room for at least
one Connection, and the idle Connections carry pairwise distinct ids, all
below the pool's id supply. -/
def execReady (s : PoolState) : Prop :=
  s.closed = false ∧ s.checkedOut = [] ∧
  s.idle.length ≤ s.cfg.maxSize ∧ 1 ≤ s.cfg.maxSize ∧
  (s.idle.map Connection.id).Nodup ∧
  ∀ i ∈ s.idle.map Connection.id, i < s.nextId

theorem acquireNow_step_ready (now : Nat) (s : PoolState) (h : execReady s) :
    ∃ c s1, acquireNow now s = .ok (c, s1) ∧
      (c.id ∈ s.idle.map Connection.id ∨ s.nextId ≤ c.id) ∧
      execReady (discardConn c s1) ∧
      c.id ∉ ((discardConn c s1).idle.map Connection.id) ∧
      c.id < (discardConn c s1).nextId ∧
      (∀ i, i ∈ ((discardConn c s1).idle.map Connection.id) →
        i ∈ s.idle.map Connection.id) ∧
      s.nextId ≤ (discardConn c s1).nextId := by
  obtain ⟨hopen, hco, hwf, hmax, hnd, hbound⟩ := h
  cases hidle : s.idle with
  | nil =>
      have hlt : s.checkedOut.length < s.cfg.maxSize := by
        rw [hco]; simpa using hmax
      refine ⟨ConnectionFactory.create s.nextId now, _,
        acquireNow_idle_nil now s hopen hidle hlt, ?_, ?_, ?_, ?_, ?_, ?_⟩
      · right
        simp [ConnectionFactory.create]
      · refine ⟨hopen, ?_, hwf, hmax, hnd, ?_⟩
        · show ((ConnectionFactory.create s.nextId now :: s.checkedOut).erase
            (ConnectionFactory.create s.nextId now)) = []
          rw [List.erase_cons_head, hco]
        · show ∀ i ∈ s.idle.map Connection.id, i < s.nextId + 1
          intro i hi
          exact Nat.lt_succ_of_lt (hbound i hi)
      · show (ConnectionFactory.create s.nextId now).id ∉ s.idle.map Connection.id
        rw [hidle]; simp
      · show (ConnectionFactory.create s.nextId now).id < s.nextId + 1
        simp [ConnectionFactory.create]
      · intro i hi
        have hi2 : i ∈ List.map Connection.id s.idle := hi
        rw [hidle] at hi2
        exact hi2
      · exact Nat.le_succ _
  | cons c rest =>
      have hnd2 : c.id ∉ rest.map Connection.id ∧ (rest.map Connection.id).Nodup := by
        rw [hidle] at hnd
        simpa [List.nodup_cons] using hnd
      refine ⟨c, _, acquireNow_idle_cons now s c rest hopen hidle, ?_, ?_, ?_, ?_, ?_, ?_⟩
      · left
        simp [List.map_cons]
      · refine ⟨hopen, ?_, ?_, hmax, hnd2.2, ?_⟩
        · show (c :: s.checkedOut).erase c = []
          rw [List.erase_cons_head, hco]
        · show rest.length ≤ s.cfg.maxSize
          rw [hidle] at hwf
          simp only [List.length_cons] at hwf
          omega
        · show ∀ i ∈ rest.map Connection.id, i < s.nextId
          intro i hi
          exact hbound i (by rw [hidle]; simp [List.map_cons]; right; simpa using hi)
      · exact hnd2.1
      · show c.id < s.nextId
        exact hbound c.id (by rw [hidle]; simp)
      · intro i hi
        simp only [List.map_cons, List.mem_cons]
        exact Or.inr hi
      · exact le_refl _

theorem execLoop_transient (query : Connection → Except ErrClass (List Row)) (now : Nat)
    (htrans : ∀ c, ∃ e, query c = .error e ∧ retryable e = true) :
    ∀ (remaining : Nat) (s : PoolState), execReady s →
      (∃ e, (execLoop query now remaining s).1 = .error (.queryError e) ∧
        retryable e = true) ∧
      ((execLoop query now remaining s).2.2).length = remaining + 1 ∧
      ((execLoop query now remaining s).2.2).Nodup ∧
      (∀ i ∈ (execLoop query now remaining s).2.2,
        i ∈ s.idle.map Connection.id ∨ s.nextId ≤ i) := by
  intro remaining
  induction remaining with
  | zero =>
      intro s hready
      obtain ⟨c, s1, hacq, hcid, hready2, hnotin, hlt2, htransfer, hnext⟩ :=
        acquireNow_step_ready now s hready
      obtain ⟨e, hq, hr⟩ := htrans c
      unfold execLoop
      rw [hacq]
      dsimp only
      rw [hq]
      dsimp only
      rw [if_pos hr]
      refine ⟨⟨e, rfl, hr⟩, rfl, List.nodup_singleton _, ?_⟩
      intro i hi
      simp only [List.mem_singleton] at hi
      subst hi
      exact hcid
  | succ n ih =>
      intro s hready
      obtain ⟨c, s1, hacq, hcid, hready2, hnotin, hlt2, htransfer, hnext⟩ :=
        acquireNow_step_ready now s hready
      obtain ⟨e, hq, hr⟩ := htrans c
      have hih := ih (discardConn c s1) hready2
      unfold execLoop
      rw [hacq]
      dsimp only
      rw [hq]
      dsimp only
      rw [if_pos hr]
      try dsimp only
      rcases hrec : execLoop query now n (discardConn c s1) with ⟨res, s3, used⟩
      rw [hrec] at hih
      dsimp only at hih
      simp only [hrec]
      try dsimp only
      obtain ⟨hres, hlen, hndp, hmem⟩ := hih
      refine ⟨hres, ?_, ?_, ?_⟩
      · simp [List.length_cons, hlen]
      · refine List.nodup_cons.mpr ⟨?_, hndp⟩
        intro hin
        rcases hmem c.id hin with hmem1 | hge
        · exact hnotin hmem1
        · omega
      · intro i hi
        rcases List.mem_cons.mp hi with rfl | hi2
        · exact hcid
        · rcases hmem i hi2 with h1 | h2
          · exact Or.inl (htransfer i h1)
          · exact Or.inr (le_trans hnext h2)

/-- C3: against a statement that always fails with a transient (retryable)
classification, `exec` makes exactly `maxAttempts` attempts — the list of
Connections it used has length `maxAttempts` and pairwise distinct ids, so
an errored Connection is never reused within the same logical call — and
then fails with `QueryError` carrying a retryable underlying error. -/
theorem exec_transient_retries (query : List Value → Connection → Except ErrClass (List Row))
    (maxAttempts now : Nat) (stmt : Statement) (ps : Params) (s : PoolState)
    (vs : List Value)
    (hbind : bindParams stmt ps = .ok vs)
    (htrans : ∀ c, ∃ e, query vs c = .error e ∧ retryable e = true)
    (hA : 1 ≤ maxAttempts) (hready : execReady s) :
    (∃ e, (exec query maxAttempts now stmt ps s).1 = .error (.queryError e) ∧
      retryable e = true) ∧
    ((exec query maxAttempts now stmt ps s).2.2).length = maxAttempts ∧
    ((exec query maxAttempts now stmt ps s).2.2).Nodup := by
  have h := execLoop_transient (query vs) now htrans (maxAttempts - 1) s hready
  unfold exec
  rw [hbind]
  dsimp only
  refine ⟨h.1, ?_, h.2.2.1⟩
  rw [h.2.1]
  omega

theorem execReady_stEmpty : execReady stEmpty :=
  ⟨rfl, rfl, by decide, by decide, by decide, by simp [stEmpty]⟩

theorem exec_transient_retries_witness :
    (1 ≤ 2 ∧ execReady stEmpty) ∧
    (∃ e, (exec qTransient 2 0 stmtPing (Params.positional []) stEmpty).1 =
        .error (.queryError e) ∧ retryable e = true) ∧
    ((exec qTransient 2 0 stmtPing (Params.positional []) stEmpty).2.2).length = 2 ∧
    ((exec qTransient 2 0 stmtPing (Params.positional []) stEmpty).2.2).Nodup :=
  ⟨⟨by decide, execReady_stEmpty⟩,
   exec_transient_retries qTransient 2 0 stmtPing (Params.positional []) stEmpty []
     rfl (fun c => ⟨.transientServer, rfl, rfl⟩) (by decide) execReady_stEmpty⟩
